import Mathlib

/-!
Verification of the tonal music-theory library: a shallow embedding of the
pitch encoding algebra (line-of-fifths coordinates), string rendering,
parsing adapter, midi/frequency conversion, transposition, and the
direction-forcing list utility, together with theorems settling the
specification claims.

JavaScript numeric operations are mapped as follows: `%` on integers is
`Int.tmod` (remainder with the sign of the dividend), `Math.floor(a / b)`
on integers is `Int.fdiv`, and general (possibly fractional) numeric
values are rationals.  Null-returning functions return `Option`.
-/

namespace Tonal

/-- Map from letter step to number of fifths (source: `FIFTHS`). -/
def FIFTHS : List ℤ := [0, 2, 4, -1, 1, 3, 5]

/-- Given a number of fifths, return the octaves they span
(source: `fifthsSpan`, `Math.floor(f * 7 / 12)`). -/
def fifthsSpan (f : ℤ) : ℤ := Int.fdiv (f * 7) 12

/-- The number of octaves spanned by each step (source: `FIFTH_OCTS`). -/
def FIFTH_OCTS : List ℤ := FIFTHS.map fifthsSpan

/-- Encode a pitch class from step number and alteration (source: `encPC`). -/
def encPC (step alt : ℤ) : ℤ := FIFTHS.getD step.toNat 0 + 7 * alt

/-- Encode octaves (source: `encOct`). -/
def encOct (step alt oct : ℤ) : ℤ :=
  oct - FIFTH_OCTS.getD step.toNat 0 - 4 * alt

/-- Create a pitch in array notation (source: `pitch`).  A missing `oct`
or `dir` argument is `none` (JavaScript `undefined`, tested with `isNum`);
`alt` is always numeric at every call site of the source. -/
def pitch (step alt : ℤ) (oct dir : Option ℤ) : Option (List ℤ) :=
  if step < 0 ∨ 6 < step then none
  else
    let pc := encPC step alt
    match oct with
    | none => some [pc]
    | some oc =>
      let o := encOct step alt oc
      match dir with
      | none => some [pc, o]
      | some dv =>
        let d : ℤ := if dv < 0 then -1 else 1
        some [d * pc, d * o, d]

/-- Normalize a fifths coordinate to an index 0..6
(source: `unaltered`; JavaScript `%` keeps the dividend's sign,
hence the negative branch). -/
def unaltered (f : ℤ) : ℤ :=
  let i := Int.tmod (f + 1) 7
  if i < 0 then 7 + i else i

/-- Step numbers in fifths order FCGDAEB (source: `STEPS`). -/
def STEPS : List ℤ := [3, 0, 4, 1, 5, 2, 6]

/-- Decode the letter step of a fifths coordinate (source: `decodeStep`). -/
def decodeStep (f : ℤ) : ℤ := STEPS.getD (unaltered f).toNat 0

/-- Decode the alteration of a fifths coordinate
(source: `decodeAlt`, `Math.floor((f + 1) / 7)`). -/
def decodeAlt (f : ℤ) : ℤ := Int.fdiv (f + 1) 7

/-- The record returned by `decode`. -/
structure Decoded where
  step : ℤ
  alt : ℤ
  oct : Option ℤ
  dir : Option ℤ
deriving DecidableEq, Repr

/-- Decode an encoded pitch (source: `decode`).  The `dir` field is
`p[2] || null`: a zero third component is mapped to `none`. -/
def decode (p : List ℤ) : Decoded :=
  let s := decodeStep (p.getD 0 0)
  let a := decodeAlt (p.getD 0 0)
  { step := s
  , alt := a
  , oct :=
      match p.get? 1 with
      | some o => some (o + 4 * a + FIFTH_OCTS.getD s.toNat 0)
      | none => none
  , dir :=
      match p.get? 2 with
      | some d => if d = 0 then none else some d
      | none => none }

/-- Pitch height in semitones (source: `height`, `p[0] * 7 + 12 * p[1]`). -/
def height (p : List ℤ) : ℤ := p.getD 0 0 * 7 + 12 * p.getD 1 0

example : pitch 0 0 (some 4) none = some [0, 4] := by decide
example : pitch 2 0 (some 0) (some 1) = some [4, -2, 1] := by decide
example : pitch 1 0 (some 0) (some (-1)) = some [-2, 1, -1] := by decide
example : decode [4, 2] = ⟨2, 0, some 4, none⟩ := by decide
example : decode [-2, 1, -1] = ⟨6, -1, some (-1), some (-1)⟩ := by decide
example : height [0, 4] = 48 := by decide

/-! ### Pitch shape tests (source: `isPitch`, `hasOct`, `isInterval`).
Encoded pitches are arrays of numbers, so `isNum` on a present component
is always true; only the array length matters. -/

/-- Source `isInterval` on an encoded pitch: has an octave component and a
numeric third component, i.e. length at least 3. -/
def isIntervalL (p : List ℤ) : Bool := 3 ≤ p.length

/-! ### Pitch to string (source: `strNote`, `strIvl`, `strPitch`). -/

/-- Letter for a step (source: `stepLetter`, `'CDEFGAB'[s]`).  Only ever
applied to decoded steps, which lie in 0..6. -/
def stepLetter (s : ℤ) : String :=
  String.mk [(['C', 'D', 'E', 'F', 'G', 'A', 'B']).getD s.toNat 'C']

/-- Repeat a character `|num|` times (source: `fillStr`). -/
def fillStr (c : Char) (num : ℤ) : String := String.mk (List.replicate num.natAbs c)

/-- Accidental glyphs for an alteration (source: `altAcc`). -/
def altAcc (n : ℤ) : String := fillStr (if n < 0 then 'b' else '#') n

/-- Octave component of the rendered text (source: `strNum`). -/
def strNum : Option ℤ → String
  | some n => toString n
  | none => ""

/-- Render a non-interval pitch as scientific notation (source: `strNote`). -/
def strNote (p : List ℤ) : Option String :=
  if isIntervalL p then none
  else
    let d := decode p
    some (stepLetter d.step ++ altAcc d.alt ++ strNum d.oct)

/-- Source `isAsc`: the decoded direction is exactly 1. -/
def isAsc (d : Decoded) : Bool := d.dir = some 1

/-- Modelled from the spec: `ivl.type` of the external interval-notation
grammar, which classifies a diatonic number as perfect class 'P'
(numbers 1, 4, 5 mod 7-style) or major class 'M'. -/
def ivlType (n : ℤ) : Char :=
  if (n - 1) % 7 = 0 ∨ (n - 1) % 7 = 3 ∨ (n - 1) % 7 = 4 then 'P' else 'M'

/-- Source `isPerf`: the diatonic degree `step + 1` is in the perfect class. -/
def isPerf (d : Decoded) : Bool := ivlType (d.step + 1) = 'P'

/-- Interval number of a decoded interval (source: `calcNum`).  Decoded
intervals always carry an octave, so the `oct` field is read with a
default that is never used. -/
def calcNum (d : Decoded) : ℤ :=
  if isAsc d then d.step + 1 + 7 * d.oct.getD 0
  else (8 - d.step) - 7 * (d.oct.getD 0 + 1)

/-- Adjusted alteration of a decoded interval (source: `calcAlt`). -/
def calcAlt (d : Decoded) : ℤ :=
  if isAsc d then d.alt
  else if isPerf d then -d.alt
  else -(d.alt + 1)

/-- Modelled from the spec: `ivl.altToQ` of the external interval-notation
grammar.  Quality glyph from the diatonic number and alteration: perfect
class has 'P' at 0, major class 'M' at 0 and 'm' at -1; positive
alterations are repeated 'A', the remaining negative ones repeated 'd'. -/
def altToQ (num alt : ℤ) : String :=
  if alt = 0 then (if ivlType num = 'P' then "P" else "M")
  else if alt = -1 ∧ ivlType num = 'M' then "m"
  else if 0 < alt then fillStr 'A' alt
  else fillStr 'd' (if ivlType num = 'P' then alt else alt + 1)

/-- Render an interval (source: `strIvl`; JavaScript concatenates the
signed number with the quality glyph). -/
def strIvl (p : List ℤ) : Option String :=
  if isIntervalL p then
    let d := decode p
    let num := calcNum d
    some (toString (d.dir.getD 0 * num) ++ altToQ num (calcAlt d))
  else none

/-- Render a pitch, dispatching on a truthy third component
(source: `strPitch`). -/
def strPitch (p : List ℤ) : Option String :=
  match p.get? 2 with
  | some d => if d ≠ 0 then strIvl p else strNote p
  | none => strNote p

/-- Source `toPitchStr` applied to a transposition result: `null` passes
through, an encoded pitch is rendered. -/
def toPitchStr : Option (List ℤ) → Option String
  | none => none
  | some p => if p.isEmpty then none else strPitch p

example : strNote [4, 2] = some "E4" := by decide
example : strNote [0, -1] = some "C-1" := by decide
example : strNote [-9, 5] = some "Bbb-1" := by decide

/-! ### Pitch parsing.

The two text grammars are external collaborators of the repository
(the note-parser and interval-notation packages); they are modelled here
from the spec's boundary description (§6): the note grammar yields
`{step, alt, oct}` from scientific pitch notation, the interval grammar
yields `{simpleNumber, alt, oct, dir}` from diatonic interval notation.
The memoization cache of the source is semantically transparent and is
not modelled. -/

/-- Letter of scientific pitch notation to step index. -/
def letterStep (c : Char) : Option ℤ :=
  if c = 'C' then some 0
  else if c = 'D' then some 1
  else if c = 'E' then some 2
  else if c = 'F' then some 3
  else if c = 'G' then some 4
  else if c = 'A' then some 5
  else if c = 'B' then some 6
  else none

/-- Value of a non-empty all-digit character run. -/
def digitsVal (l : List Char) : Option ℕ :=
  if l = [] then none
  else if l.all Char.isDigit then
    some (l.foldl (fun acc c => 10 * acc + (c.toNat - 48)) 0)
  else none

/-- Optional octave suffix: empty means no octave, otherwise an optionally
negated digit run spanning the whole remainder. -/
def octSuffix : List Char → Option (Option ℤ)
  | [] => some none
  | '-' :: ds => (digitsVal ds).map fun n => some (-(n : ℤ))
  | ds => (digitsVal ds).map fun n => some (n : ℤ)

/-- Modelled from the spec: the external note-name grammar.
`letter + accidentals + octave?` to `{step, alt, oct}`. -/
def noteGrammar (s : String) : Option (ℤ × ℤ × Option ℤ) :=
  match s.toList with
  | [] => none
  | c :: rest =>
    match letterStep c with
    | none => none
    | some st =>
      let alt : ℤ :=
        if rest.head? = some '#' then (rest.takeWhile (· = '#')).length
        else -((rest.takeWhile (· = 'b')).length : ℤ)
      let rest2 :=
        if rest.head? = some '#' then rest.dropWhile (· = '#')
        else rest.dropWhile (· = 'b')
      (octSuffix rest2).map fun oc => (st, alt, oc)

/-- Quality glyph run to alteration, given the perfect/major class of the
simplified number (inverse of `altToQ`; part of the modelled interval
grammar). -/
def qualityAlt (perfect : Bool) (q : List Char) : Option ℤ :=
  if q = ['P'] then (if perfect then some 0 else none)
  else if q = ['M'] then (if perfect then none else some 0)
  else if q = ['m'] then (if perfect then none else some (-1))
  else if q ≠ [] ∧ q.all (· = 'A') then some (q.length : ℤ)
  else if q ≠ [] ∧ q.all (· = 'd') then
    some (if perfect then -(q.length : ℤ) else -(q.length : ℤ) - 1)
  else none

/-- Modelled from the spec: the external interval-name grammar.
An optional leading '-' gives the direction; the number and quality glyph
may come in either order; the number is split into a simple number 1..7
and an octave count. -/
def ivlGrammar (s : String) : Option (ℤ × ℤ × ℤ × ℤ) :=
  match s.toList with
  | [] => none
  | l0 =>
    let dir : ℤ := if l0.head? = some '-' then -1 else 1
    let l1 := if l0.head? = some '-' then l0.tail else l0
    let ds := l1.takeWhile Char.isDigit
    let digitsFirst := ds ≠ []
    let numPart := if digitsFirst then ds else l1.dropWhile (fun c => !c.isDigit)
    let qPart := if digitsFirst then l1.dropWhile Char.isDigit
                 else l1.takeWhile (fun c => !c.isDigit)
    match digitsVal numPart with
    | none => none
    | some n =>
      if n = 0 then none
      else
        let simple := ((n : ℤ) - 1) % 7 + 1
        let oct := ((n : ℤ) - 1) / 7
        (qualityAlt (ivlType simple = 'P') qPart).map fun alt =>
          (simple, alt, oct, dir)

/-- A JavaScript value entering the public surface: a number, a string, or
an encoded pitch array. -/
inductive Value where
  | vnum (q : ℚ)
  | vstr (s : String)
  | vpit (p : List ℤ)
deriving DecidableEq, Repr

/-- Source `parseNote`: parse text through the note grammar and encode. -/
def parseNote (s : String) : Option (List ℤ) :=
  (noteGrammar s).bind fun r => pitch r.1 r.2.1 r.2.2 none

/-- Source `parseIvl`: parse text through the interval grammar and encode. -/
def parseIvl (s : String) : Option (List ℤ) :=
  (ivlGrammar s).bind fun r => pitch (r.1 - 1) r.2.1 (some r.2.2.1) (some r.2.2.2)

/-- Source `parsePitch`: the note grammar first, then the interval grammar. -/
def parsePitch (s : String) : Option (List ℤ) :=
  (parseNote s).orElse fun _ => parseIvl s

/-- Source `isPitch` on a value: an array whose first element is a number. -/
def isPitchV : Value → Bool
  | .vpit p => !p.isEmpty
  | _ => false

/-- Source `expectNote`: pass an encoded pitch through, otherwise parse as
note text (non-strings parse to null). -/
def expectNote : Value → Option (List ℤ)
  | .vpit p => if p.isEmpty then none else some p
  | .vstr s => parseNote s
  | .vnum _ => none

/-- Source `expectPitch`: pass an encoded pitch through, otherwise parse as
note or interval text. -/
def expectPitch : Value → Option (List ℤ)
  | .vpit p => if p.isEmpty then none else some p
  | .vstr s => parsePitch s
  | .vnum _ => none

example : parseNote "C4" = some [0, 4] := by decide
example : parseNote "A4" = some [3, 3] := by decide
example : parseNote "Db4" = some [-5, 7] := by decide
example : parseNote "H9" = none := by decide
example : parseIvl "M3" = some [4, -2, 1] := by decide
example : parseIvl "P5" = some [1, 0, 1] := by decide
example : parseIvl "-5P" = some [-1, 0, -1] := by decide
example : parsePitch "M3" = some [4, -2, 1] := by decide

/-! ### Midi pitch numbers. -/

/-- Accumulated value of a digit run (helper of the modelled JavaScript
numeric coercion). -/
def digitsToNat (l : List Char) : ℕ :=
  l.foldl (fun acc c => 10 * acc + (c.toNat - 48)) 0

/-- Body of the modelled JavaScript string-to-number coercion after the
sign has been stripped: integer digits and an optional '.' with fraction
digits, spanning the whole remainder. -/
def strToNumberAux (l1 : List Char) (sgn : ℤ) : Option ℚ :=
  let ip := l1.takeWhile Char.isDigit
  let r1 := l1.dropWhile Char.isDigit
  if r1 = [] then
    if ip = [] then none else some (mkRat (sgn * (digitsToNat ip : ℤ)) 1)
  else if r1.head? = some '.' ∧ r1.tail.all Char.isDigit ∧
      (ip ≠ [] ∨ r1.tail ≠ []) then
    some (mkRat (sgn * ((digitsToNat ip : ℤ) * 10 ^ r1.tail.length +
      (digitsToNat r1.tail : ℤ))) (10 ^ r1.tail.length))
  else none

/-- Modelled from the spec: the JavaScript string-to-number coercion
(`ToNumber`, applied by the comparison and unary plus operators inside
`isMidi` and `midi`), restricted to plain signed decimal literals: an
optional sign, integer digits, and an optional '.' with fraction digits
("60", "60.5", "-3", ".5").  Strings outside this subset are treated as
NaN; the richer syntaxes JavaScript additionally accepts either contain a
digit (exponents, hex) — and no theorem asserts the midi behavior of a
digit-bearing string outside the subset — or coerce to 0 or ±Infinity
(the empty or whitespace string, "Infinity"), which `isMidi` rejects just
like NaN. -/
def strToNumber (s : String) : Option ℚ :=
  if s.toList.head? = some '-' then strToNumberAux s.toList.tail (-1)
  else if s.toList.head? = some '+' then strToNumberAux s.toList.tail 1
  else strToNumberAux s.toList 1

/-- JavaScript numeric coercion of a value: numbers coerce to themselves,
strings through `strToNumber`, and arrays are excluded by the `isArr`
test of `isMidi` before any coercion happens. -/
def jsNumberOf : Value → Option ℚ
  | .vnum q => some q
  | .vstr s => strToNumber s
  | .vpit _ => none

example : strToNumber "60" = some 60 := by decide
example : strToNumber "60.5" = some (mkRat 121 2) := rfl
example : strToNumber "-5" = some (mkRat (-5) 1) := rfl
example : strToNumber "H9" = none := rfl
example : strToNumber "60.5.1" = none := rfl

/-- Source `isMidi`: not an array, and (after coercion) strictly between
0 and 129.  Comparisons against NaN are false. -/
def isMidi : Value → Bool
  | .vpit _ => false
  | v =>
    match jsNumberOf v with
    | some q => decide (0 < q ∧ q < 129)
    | none => false

/-- Source `hasOct` on a possibly-null pitch: at least two components. -/
def hasOctO : Option (List ℤ) → Bool
  | some p => 2 ≤ p.length
  | none => false

/-- Get the midi number for a value (source: `midi`).  The source computes
`height(p) + 12`; the addition happens on integers here, cast to the
common numeric type at the end. -/
def midi (v : Value) : Option ℚ :=
  let p := expectNote v
  if hasOctO p then some ((height (p.getD []) + 12 : ℤ) : ℚ)
  else if isMidi v then jsNumberOf v
  else none

example : midi (.vstr "C4") = some 60 := rfl
example : midi (.vstr "A4") = some 69 := rfl
example : midi (.vpit [0, -1]) = some 0 := rfl
example : midi (.vnum 60) = some 60 := by decide
example : midi (.vstr "H9") = none := rfl

/-- Source `CHROMATIC`: chroma to unaltered step, with holes. -/
def CHROMATIC : List (Option ℤ) :=
  [some 0, none, some 1, none, some 2, some 3, none, some 4, none,
   some 5, none, some 6]

/-- Source `midiStep`: `CHROMATIC[m % 12]`.  A negative JavaScript
remainder would index outside the array and yield undefined; that case
(negative `m` only) is mapped to `none`. -/
def midiStep (m : ℤ) : Option ℤ :=
  let i := Int.tmod m 12
  if i < 0 then none else CHROMATIC.getD i.toNat none

/-- The final step of `chromatic`: render the constructed pitch, null
passing through. -/
def strNoteOpt : Option (List ℤ) → Option String
  | some p => strNote p
  | none => none

/-- Create a chromatic scale (source: `chromatic`).  The fallthrough
branches fill the five chromatic holes with the sharpened step below or
the flattened step above; the octave is `Math.floor(m / 12) - 1`
throughout. -/
def chromatic (useSharps : Bool) (m : ℤ) : Option String :=
  strNoteOpt
    (match midiStep m with
     | some st => pitch st 0 (some (Int.fdiv m 12 - 1)) none
     | none =>
       if useSharps then
         match midiStep (m - 1) with
         | some st => pitch st 1 (some (Int.fdiv m 12 - 1)) none
         | none => none
       else
         match midiStep (m + 1) with
         | some st => pitch st (-1) (some (Int.fdiv m 12 - 1)) none
         | none => none)

/-- Source `fromMidi`: the flat-rendering chromatic scale. -/
def fromMidi : ℤ → Option String := chromatic false

example : chromatic false 60 = some "C4" := by decide
example : chromatic false 61 = some "Db4" := by decide
example : chromatic true 61 = some "C#4" := by decide
example : chromatic false 62 = some "D4" := by decide

/-! ### Frequency conversions. -/

/-- Source `wellTempered`.  The JavaScript computes the float
`Math.pow(2, (m - 69) / 12) * ref`; the result is represented here
symbolically as the pair `(ref, e)` denoting the real number
`ref * 2 ^ e`.  The JavaScript guard `m ?` is falsy both for null and
for the midi number 0, hence the explicit zero test. -/
def wellTempered (ref : ℚ) (v : Value) : Option (ℚ × ℚ) :=
  match midi v with
  | some m => if m = 0 then none else some (ref, (m - 69) / 12)
  | none => none

/-- Source `toFreq`: well temperament tuned at A4 = 440 Hz. -/
def toFreq : Value → Option (ℚ × ℚ) := wellTempered 440

example : toFreq (.vstr "A4") = some (440, 0) := by
  have h : midi (.vstr "A4") = some 69 := rfl
  simp [toFreq, wellTempered, h]

/-! ### Pitch distances. -/

/-- Transpose a pitch by an interval (source: `trBy`): sum the fifths,
then the octaves when the subject has them, and recompute the direction
from the sign of the height when the subject is an interval. -/
def trBy (i p : List ℤ) : List ℤ :=
  let f := i.getD 0 0 + p.getD 0 0
  if p.length = 1 then [f]
  else
    let o := i.getD 1 0 + p.getD 1 0
    if p.length = 2 then [f, o]
    else
      let d : ℤ := if 7 * f + 12 * o < 0 then -1 else 1
      [f, o, d]

/-- Source `isInterval` on a possibly-null pitch. -/
def isIntervalO : Option (List ℤ) → Bool
  | some p => isIntervalL p
  | none => false

/-- Source `transpose` (binary form).  When one operand is an interval and
the other fails to parse, the source dereferences null inside `trBy`
(`p[0]` of null) and throws a TypeError, modelled as `.error ()`. -/
def transpose (a b : Value) : Except Unit (Option String) :=
  match expectPitch a, expectPitch b with
  | some pa, some pb =>
    if isIntervalL pa then .ok (toPitchStr (some (trBy pa pb)))
    else if isIntervalL pb then .ok (toPitchStr (some (trBy pb pa)))
    else .ok none
  | some pa, none => if isIntervalL pa then .error () else .ok none
  | none, some pb => if isIntervalL pb then .error () else .ok none
  | none, none => .ok none

example : transpose (.vstr "C4") (.vstr "M3") = .ok (some "E4") := rfl
example : transpose (.vstr "M3") (.vstr "C4") = .ok (some "E4") := rfl
example : transpose (.vstr "M3") (.vstr "M3") = .ok (some "5A") := rfl
example : transpose (.vstr "M3") (.vstr "H9") = .error () := rfl

/-! ### Forcing a direction on a list (source: src/lib/list/direction.js).

Its two helpers live in lib/note/note.js and lib/list/list.js, which are
not under src.  Modelled from the spec: `note(x)` parses a note name into
a record with `.midi` and `.oct`, `note(x, null, oct)` rebuilds the note
with a new octave, and `.name` re-renders it; since that boundary is a
bijection between names and records, notes are represented here directly
as their `{step, alt, oct}` records.  `toList` on an array is the
identity. -/

/-- A parsed note record at the lib/note boundary. -/
structure NoteR where
  step : ℤ
  alt : ℤ
  oct : ℤ
deriving DecidableEq, Repr

/-- Modelled from the spec: the `.midi` property of a note record,
`height + 12` over the library encoding. -/
def noteMidi (n : NoteR) : ℤ :=
  encPC n.step n.alt * 7 + 12 * encOct n.step n.alt n.oct + 12

/-- Source comparator `GT`. -/
def GTfn (a b : ℤ) : Bool := decide (b < a)

/-- Source comparator `LT`. -/
def LTfn (a b : ℤ) : Bool := decide (a < b)

/-- One iteration of the direction loop: when the comparator rejects the
current element against the previous kept one, transpose it by
`Math.floor((prev.midi - curr.midi) / 12) + off` octaves. -/
def dirStep (comp : ℤ → ℤ → Bool) (off : ℤ) (prev c : NoteR) : NoteR :=
  if comp (noteMidi prev) (noteMidi c) then
    { c with oct := c.oct + (Int.fdiv (noteMidi prev - noteMidi c) 12 + off) }
  else c

/-- The direction loop over the tail of the list, carrying the previously
kept element. -/
def directionRun (comp : ℤ → ℤ → Bool) (off : ℤ) : NoteR → List NoteR → List NoteR
  | _, [] => []
  | prev, c :: rest =>
    let c2 := dirStep comp off prev c
    c2 :: directionRun comp off c2 rest

/-- Source `direction` from src/lib/list/direction.js: default a falsy
direction to 1, throw on any other value than 1 and -1, keep the first
element, and force the rest through the comparator. -/
def direction (list : List NoteR) (dir : Option ℚ) : Except String (List NoteR) :=
  let d : ℚ :=
    match dir with
    | none => 1
    | some v => if v = 0 then 1 else v
  if d ≠ 1 ∧ d ≠ -1 then .error ("Direction not valid: " ++ toString d)
  else
    let comp := if d = 1 then GTfn else LTfn
    let off : ℤ := if d = 1 then 1 else 0
    match list with
    | [] => .ok []
    | x :: rest => .ok (x :: directionRun comp off x rest)

example :
    direction [⟨0, 0, 4⟩, ⟨4, 0, 3⟩, ⟨2, 0, 5⟩] (some 1) =
      .ok [⟨0, 0, 4⟩, ⟨4, 0, 4⟩, ⟨2, 0, 5⟩] := rfl
example : direction [⟨0, 0, 4⟩] (some 2) =
    .error ("Direction not valid: " ++ toString (2 : ℚ)) := rfl
example : direction [⟨0, 0, 4⟩, ⟨0, 0, 5⟩] (some (-1)) =
    .ok [⟨0, 0, 4⟩, ⟨0, 0, 4⟩] := rfl

/-! ## Arithmetic bridging lemmas

JavaScript `%` (`Int.tmod`) and `Math.floor` division (`Int.fdiv`) are
related to the euclidean `%` and `/` that `omega` understands. -/

theorem unaltered_eq (f : ℤ) : unaltered f = (f + 1) % 7 := by
  have key : ∀ n : ℤ,
      (if Int.tmod n 7 < 0 then 7 + Int.tmod n 7 else Int.tmod n 7) = n % 7 := by
    intro n
    rcases le_or_lt 0 n with h | h
    · rw [Int.tmod_eq_emod h (by norm_num)]
      have h1 := Int.emod_nonneg n (show (7:ℤ) ≠ 0 by norm_num)
      omega
    · have h2 : Int.tmod n 7 = -(Int.tmod (-n) 7) := by
        rw [Int.tmod_def, Int.tmod_def, Int.neg_tdiv]; ring
      rw [h2, Int.tmod_eq_emod (by omega) (by norm_num)]
      have h3 := Int.emod_nonneg (-n) (show (7:ℤ) ≠ 0 by norm_num)
      have h4 := Int.emod_lt_of_pos (-n) (show (0:ℤ) < 7 by norm_num)
      have h5 := Int.emod_nonneg n (show (7:ℤ) ≠ 0 by norm_num)
      have h6 := Int.emod_lt_of_pos n (show (0:ℤ) < 7 by norm_num)
      omega
  exact key (f + 1)

theorem decodeAlt_eq (f : ℤ) : decodeAlt f = (f + 1) / 7 :=
  Int.fdiv_eq_ediv (f + 1) (by norm_num)

theorem decodeStep_eq (f : ℤ) :
    decodeStep f = STEPS.getD ((f + 1) % 7).toNat 0 := by
  unfold decodeStep
  rw [unaltered_eq]

/-- The decoded step of any fifths coordinate is a letter index 0..6. -/
theorem decodeStep_range (f : ℤ) : 0 ≤ decodeStep f ∧ decodeStep f ≤ 6 := by
  rw [decodeStep_eq]
  have hcase : (f + 1) % 7 = 0 ∨ (f + 1) % 7 = 1 ∨ (f + 1) % 7 = 2 ∨
      (f + 1) % 7 = 3 ∨ (f + 1) % 7 = 4 ∨ (f + 1) % 7 = 5 ∨
      (f + 1) % 7 = 6 := by omega
  rcases hcase with h | h | h | h | h | h | h <;> rw [h] <;> decide

/-- Decoding then re-encoding a pitch class is the identity on the fifths
coordinate. -/
theorem encPC_decode (f : ℤ) : encPC (decodeStep f) (decodeAlt f) = f := by
  rw [decodeStep_eq, decodeAlt_eq]
  have hcase : (f + 1) % 7 = 0 ∨ (f + 1) % 7 = 1 ∨ (f + 1) % 7 = 2 ∨
      (f + 1) % 7 = 3 ∨ (f + 1) % 7 = 4 ∨ (f + 1) % 7 = 5 ∨
      (f + 1) % 7 = 6 := by omega
  rcases hcase with h | h | h | h | h | h | h <;> rw [h]
  · have e : encPC (STEPS.getD ((0:ℤ).toNat) 0) ((f + 1) / 7) =
        -1 + 7 * ((f + 1) / 7) := rfl
    omega
  · have e : encPC (STEPS.getD ((1:ℤ).toNat) 0) ((f + 1) / 7) =
        0 + 7 * ((f + 1) / 7) := rfl
    omega
  · have e : encPC (STEPS.getD ((2:ℤ).toNat) 0) ((f + 1) / 7) =
        1 + 7 * ((f + 1) / 7) := rfl
    omega
  · have e : encPC (STEPS.getD ((3:ℤ).toNat) 0) ((f + 1) / 7) =
        2 + 7 * ((f + 1) / 7) := rfl
    omega
  · have e : encPC (STEPS.getD ((4:ℤ).toNat) 0) ((f + 1) / 7) =
        3 + 7 * ((f + 1) / 7) := rfl
    omega
  · have e : encPC (STEPS.getD ((5:ℤ).toNat) 0) ((f + 1) / 7) =
        4 + 7 * ((f + 1) / 7) := rfl
    omega
  · have e : encPC (STEPS.getD ((6:ℤ).toNat) 0) ((f + 1) / 7) =
        5 + 7 * ((f + 1) / 7) := rfl
    omega

/-- Encoding then decoding recovers the step. -/
theorem decodeStep_encPC (s a : ℤ) (h0 : 0 ≤ s) (h6 : s ≤ 6) :
    decodeStep (encPC s a) = s := by
  rw [decodeStep_eq]
  interval_cases s
  · have e : encPC 0 a = 0 + 7 * a := rfl
    rw [e, show (0 + 7 * a + 1) % 7 = 1 by omega]; rfl
  · have e : encPC 1 a = 2 + 7 * a := rfl
    rw [e, show (2 + 7 * a + 1) % 7 = 3 by omega]; rfl
  · have e : encPC 2 a = 4 + 7 * a := rfl
    rw [e, show (4 + 7 * a + 1) % 7 = 5 by omega]; rfl
  · have e : encPC 3 a = -1 + 7 * a := rfl
    rw [e, show (-1 + 7 * a + 1) % 7 = 0 by omega]; rfl
  · have e : encPC 4 a = 1 + 7 * a := rfl
    rw [e, show (1 + 7 * a + 1) % 7 = 2 by omega]; rfl
  · have e : encPC 5 a = 3 + 7 * a := rfl
    rw [e, show (3 + 7 * a + 1) % 7 = 4 by omega]; rfl
  · have e : encPC 6 a = 5 + 7 * a := rfl
    rw [e, show (5 + 7 * a + 1) % 7 = 6 by omega]; rfl

/-- Encoding then decoding recovers the alteration. -/
theorem decodeAlt_encPC (s a : ℤ) (h0 : 0 ≤ s) (h6 : s ≤ 6) :
    decodeAlt (encPC s a) = a := by
  rw [decodeAlt_eq]
  interval_cases s
  · rw [show encPC 0 a = 0 + 7 * a from rfl]; omega
  · rw [show encPC 1 a = 2 + 7 * a from rfl]; omega
  · rw [show encPC 2 a = 4 + 7 * a from rfl]; omega
  · rw [show encPC 3 a = -1 + 7 * a from rfl]; omega
  · rw [show encPC 4 a = 1 + 7 * a from rfl]; omega
  · rw [show encPC 5 a = 3 + 7 * a from rfl]; omega
  · rw [show encPC 6 a = 5 + 7 * a from rfl]; omega

/-! ## Shape lemmas for `pitch` and `decode`. -/

theorem pitch_pc (s a : ℤ) (h0 : 0 ≤ s) (h6 : s ≤ 6) :
    pitch s a none none = some [encPC s a] := by
  unfold pitch
  rw [if_neg (by omega)]

theorem pitch_note (s a oc : ℤ) (h0 : 0 ≤ s) (h6 : s ≤ 6) :
    pitch s a (some oc) none = some [encPC s a, encOct s a oc] := by
  unfold pitch
  rw [if_neg (by omega)]

theorem pitch_ivl (s a oc dv : ℤ) (h0 : 0 ≤ s) (h6 : s ≤ 6) :
    pitch s a (some oc) (some dv) =
      some [(if dv < 0 then (-1:ℤ) else 1) * encPC s a,
            (if dv < 0 then (-1:ℤ) else 1) * encOct s a oc,
            (if dv < 0 then (-1:ℤ) else 1)] := by
  unfold pitch
  rw [if_neg (by omega)]

theorem decode_one (x : ℤ) :
    decode [x] = ⟨decodeStep x, decodeAlt x, none, none⟩ := rfl

theorem decode_two (x y : ℤ) :
    decode [x, y] = ⟨decodeStep x, decodeAlt x,
      some (y + 4 * decodeAlt x + FIFTH_OCTS.getD (decodeStep x).toNat 0),
      none⟩ := rfl

theorem decode_three (x y z : ℤ) :
    decode [x, y, z] = ⟨decodeStep x, decodeAlt x,
      some (y + 4 * decodeAlt x + FIFTH_OCTS.getD (decodeStep x).toNat 0),
      if z = 0 then none else some z⟩ := rfl

theorem encOct_eq (s a oc : ℤ) :
    encOct s a oc = oc - FIFTH_OCTS.getD s.toNat 0 - 4 * a := rfl

/-- Re-encoding the decoded octave of a note is the identity. -/
theorem decode_oct_encOct (f o : ℤ) :
    encOct (decodeStep f) (decodeAlt f)
      (o + 4 * decodeAlt f + FIFTH_OCTS.getD (decodeStep f).toNat 0) = o := by
  rw [encOct_eq]; ring

/-- Claim C9: the decoded step is always in 0..6: for every integer fifths
coordinate `decodeStep` yields a value in `[0, 6]`, and consequently every
pitch the library decodes has its step in `[0, 6]`. -/
theorem c9_decode_step_range :
    (∀ f : ℤ, 0 ≤ decodeStep f ∧ decodeStep f ≤ 6) ∧
    (∀ p : List ℤ, 0 ≤ (decode p).step ∧ (decode p).step ≤ 6) := by
  refine ⟨decodeStep_range, fun p => ?_⟩
  exact decodeStep_range (p.getD 0 0)

/-- Claim C1 (amended): `decode` and `pitch` are mutual inverses for pitch
classes, notes, and ascending intervals (`dir = +1`); for descending
intervals (`dir = -1`) the encoding negates both coordinates, so decoding
the encoding of `(step, alt, oct, -1)` returns the decoding of the negated
coordinates (not `{step, alt, oct, -1}`), and re-encoding the decoding of
`[f, o, -1]` yields the negation `[-f, -o, -1]` rather than the pitch
itself. -/
theorem c1_roundtrip_amended :
    (∀ s a : ℤ, 0 ≤ s → s ≤ 6 →
      (pitch s a none none).map decode = some ⟨s, a, none, none⟩) ∧
    (∀ s a oc : ℤ, 0 ≤ s → s ≤ 6 →
      (pitch s a (some oc) none).map decode = some ⟨s, a, some oc, none⟩) ∧
    (∀ s a oc : ℤ, 0 ≤ s → s ≤ 6 →
      (pitch s a (some oc) (some 1)).map decode = some ⟨s, a, some oc, some 1⟩) ∧
    (∀ f : ℤ,
      pitch (decode [f]).step (decode [f]).alt (decode [f]).oct (decode [f]).dir
        = some [f]) ∧
    (∀ f o : ℤ,
      pitch (decode [f, o]).step (decode [f, o]).alt (decode [f, o]).oct
        (decode [f, o]).dir = some [f, o]) ∧
    (∀ f o : ℤ,
      pitch (decode [f, o, 1]).step (decode [f, o, 1]).alt (decode [f, o, 1]).oct
        (decode [f, o, 1]).dir = some [f, o, 1]) ∧
    (∀ s a oc : ℤ, 0 ≤ s → s ≤ 6 →
      (pitch s a (some oc) (some (-1))).map decode =
        some ⟨(decode [-encPC s a, -encOct s a oc]).step,
              (decode [-encPC s a, -encOct s a oc]).alt,
              (decode [-encPC s a, -encOct s a oc]).oct, some (-1)⟩) ∧
    (∀ f o : ℤ,
      pitch (decode [f, o, -1]).step (decode [f, o, -1]).alt
        (decode [f, o, -1]).oct (decode [f, o, -1]).dir = some [-f, -o, -1]) := by
  refine ⟨?_, ?_, ?_, ?_, ?_, ?_, ?_, ?_⟩
  · intro s a h0 h6
    rw [pitch_pc s a h0 h6, Option.map_some', decode_one,
      decodeStep_encPC s a h0 h6, decodeAlt_encPC s a h0 h6]
  · intro s a oc h0 h6
    rw [pitch_note s a oc h0 h6, Option.map_some', decode_two,
      decodeStep_encPC s a h0 h6, decodeAlt_encPC s a h0 h6]
    rw [show encOct s a oc + 4 * a + FIFTH_OCTS.getD s.toNat 0 = oc by
      rw [encOct_eq]; ring]
  · intro s a oc h0 h6
    rw [pitch_ivl s a oc 1 h0 h6, Option.map_some']
    rw [show (if (1:ℤ) < 0 then (-1:ℤ) else 1) = 1 by norm_num, one_mul, one_mul]
    rw [decode_three, decodeStep_encPC s a h0 h6, decodeAlt_encPC s a h0 h6]
    rw [show encOct s a oc + 4 * a + FIFTH_OCTS.getD s.toNat 0 = oc by
      rw [encOct_eq]; ring]
    rw [if_neg (by norm_num : ¬(1:ℤ) = 0)]
  · intro f
    show pitch (decodeStep f) (decodeAlt f) none none = some [f]
    rw [pitch_pc _ _ (decodeStep_range f).1 (decodeStep_range f).2, encPC_decode]
  · intro f o
    show pitch (decodeStep f) (decodeAlt f)
      (some (o + 4 * decodeAlt f + FIFTH_OCTS.getD (decodeStep f).toNat 0)) none
        = some [f, o]
    rw [pitch_note _ _ _ (decodeStep_range f).1 (decodeStep_range f).2,
      encPC_decode, decode_oct_encOct]
  · intro f o
    show pitch (decodeStep f) (decodeAlt f)
      (some (o + 4 * decodeAlt f + FIFTH_OCTS.getD (decodeStep f).toNat 0))
        (some 1) = some [f, o, 1]
    rw [pitch_ivl _ _ _ _ (decodeStep_range f).1 (decodeStep_range f).2]
    rw [show (if (1:ℤ) < 0 then (-1:ℤ) else 1) = 1 by norm_num, one_mul, one_mul,
      encPC_decode, decode_oct_encOct]
  · intro s a oc h0 h6
    rw [pitch_ivl s a oc (-1) h0 h6, Option.map_some']
    rw [show (if (-1:ℤ) < 0 then (-1:ℤ) else 1) = -1 by norm_num]
    rw [neg_one_mul, neg_one_mul, decode_three, decode_two]
    rw [if_neg (by norm_num : ¬(-1:ℤ) = 0)]
  · intro f o
    show pitch (decodeStep f) (decodeAlt f)
      (some (o + 4 * decodeAlt f + FIFTH_OCTS.getD (decodeStep f).toNat 0))
        (some (-1)) = some [-f, -o, -1]
    rw [pitch_ivl _ _ _ _ (decodeStep_range f).1 (decodeStep_range f).2]
    rw [show (if (-1:ℤ) < 0 then (-1:ℤ) else 1) = -1 by norm_num]
    rw [neg_one_mul, neg_one_mul, encPC_decode, decode_oct_encOct]

/-- Witness for C1: the round trip at the concrete note `(2, 1, 4)`. -/
theorem c1_roundtrip_witness :
    (pitch 2 1 (some 4) none).map decode = some ⟨2, 1, some 4, none⟩ :=
  c1_roundtrip_amended.2.1 2 1 4 (by norm_num) (by norm_num)

/-- Counterexample for C1 as stated: the descending interval encoded from
`(step 1, alt 0, oct 0, dir -1)` decodes to `(6, -1, -1, -1)`, not to the
original record, and re-encoding that decoding yields `[2, -1, -1]`, the
negation of the original `[-2, 1, -1]`. -/
theorem c1_roundtrip_counterexample :
    (pitch 1 0 (some 0) (some (-1))).map decode =
      some ⟨6, -1, some (-1), some (-1)⟩ ∧
    (⟨6, -1, some (-1), some (-1)⟩ : Decoded) ≠ ⟨1, 0, some 0, some (-1)⟩ ∧
    pitch 6 (-1) (some (-1)) (some (-1)) = some [2, -1, -1] ∧
    ([2, -1, -1] : List ℤ) ≠ [-2, 1, -1] := by decide

/-! ## Case lemmas for `transpose`. -/

theorem transpose_none_none (a b : Value) (ha : expectPitch a = none)
    (hb : expectPitch b = none) : transpose a b = .ok none := by
  unfold transpose
  rw [ha, hb]

theorem transpose_some_none (a b : Value) (pa : List ℤ)
    (ha : expectPitch a = some pa) (hb : expectPitch b = none) :
    transpose a b = if isIntervalL pa then .error () else .ok none := by
  unfold transpose
  rw [ha, hb]

theorem transpose_none_some (a b : Value) (pb : List ℤ)
    (ha : expectPitch a = none) (hb : expectPitch b = some pb) :
    transpose a b = if isIntervalL pb then .error () else .ok none := by
  unfold transpose
  rw [ha, hb]

theorem transpose_some_some (a b : Value) (pa pb : List ℤ)
    (ha : expectPitch a = some pa) (hb : expectPitch b = some pb) :
    transpose a b =
      if isIntervalL pa then .ok (toPitchStr (some (trBy pa pb)))
      else if isIntervalL pb then .ok (toPitchStr (some (trBy pb pa)))
      else .ok none := by
  unfold transpose
  rw [ha, hb]

/-- Claim C2: `transpose` is symmetric in its two arguments whenever
exactly one operand is interval-shaped, and in particular
`transpose "C4" "M3"` and `transpose "M3" "C4"` both yield `"E4"`. -/
theorem c2_transpose_symm :
    (∀ a b : Value,
      isIntervalO (expectPitch a) ≠ isIntervalO (expectPitch b) →
      transpose a b = transpose b a) ∧
    transpose (.vstr "C4") (.vstr "M3") = .ok (some "E4") ∧
    transpose (.vstr "M3") (.vstr "C4") = .ok (some "E4") := by
  refine ⟨?_, rfl, rfl⟩
  intro a b h
  rcases hpa : expectPitch a with _ | pa <;> rcases hpb : expectPitch b with _ | pb
  · rw [transpose_none_none a b hpa hpb, transpose_none_none b a hpb hpa]
  · rw [transpose_none_some a b pb hpa hpb, transpose_some_none b a pb hpb hpa]
  · rw [transpose_some_none a b pa hpa hpb, transpose_none_some b a pa hpb hpa]
  · rw [transpose_some_some a b pa pb hpa hpb, transpose_some_some b a pb pa hpb hpa]
    rw [hpa, hpb] at h
    simp only [isIntervalO] at h
    cases h1 : isIntervalL pa <;> cases h2 : isIntervalL pb <;> rw [h1, h2] at h
    · exact absurd rfl h
    · simp [h1, h2]
    · simp [h1, h2]
    · exact absurd rfl h

/-- Witness for C2: applied to the note `"C4"` and the interval `"M3"`. -/
theorem c2_transpose_symm_witness :
    transpose (.vstr "C4") (.vstr "M3") = transpose (.vstr "M3") (.vstr "C4") :=
  c2_transpose_symm.1 (.vstr "C4") (.vstr "M3") (by decide)

/-- The transposition of a pitch by an interval, when the subject is itself
an interval, is a three-component pitch with a nonzero direction. -/
theorem trBy_ivl_shape (pa pb : List ℤ) (hb : isIntervalL pb) :
    ∃ f o d : ℤ, trBy pa pb = [f, o, d] ∧ d ≠ 0 := by
  have hlen : 3 ≤ pb.length := by simpa [isIntervalL] using hb
  refine ⟨pa.getD 0 0 + pb.getD 0 0, pa.getD 1 0 + pb.getD 1 0,
    if 7 * (pa.getD 0 0 + pb.getD 0 0) + 12 * (pa.getD 1 0 + pb.getD 1 0) < 0
      then -1 else 1, ?_, ?_⟩
  · unfold trBy
    rw [if_neg (by omega), if_neg (by omega)]
  · split <;> norm_num

/-- A three-component pitch always renders as an interval string. -/
theorem strIvl_isSome (f o d : ℤ) : (strIvl [f, o, d]).isSome := by
  unfold strIvl
  rw [if_pos (show isIntervalL [f, o, d] = true from rfl)]
  rfl

/-- Claim C3 (amended): `transpose` returns null exactly when neither
operand is interval-shaped after the adapter (including when both fail to
parse, or when the failing operand accompanies a non-interval); when both
operands parse to intervals it composes them and returns a rendered
interval, not null; and when exactly one operand is an interval while the
other fails to parse, the call throws (the source dereferences null)
instead of returning null. -/
theorem c3_transpose_shape_amended :
    (∀ a b : Value, ¬ isIntervalO (expectPitch a) = true →
      ¬ isIntervalO (expectPitch b) = true → transpose a b = .ok none) ∧
    (∀ a b : Value, ∀ pa pb : List ℤ, expectPitch a = some pa →
      expectPitch b = some pb → isIntervalL pa → isIntervalL pb →
      transpose a b = .ok (strIvl (trBy pa pb)) ∧ (strIvl (trBy pa pb)).isSome) ∧
    (∀ a b : Value, ∀ pa : List ℤ, expectPitch a = some pa → isIntervalL pa →
      expectPitch b = none →
      transpose a b = .error () ∧ transpose b a = .error ()) := by
  refine ⟨?_, ?_, ?_⟩
  · intro a b ha hb
    rcases hpa : expectPitch a with _ | pa <;> rcases hpb : expectPitch b with _ | pb
    · exact transpose_none_none a b hpa hpb
    · rw [hpb] at hb
      simp only [isIntervalO] at hb
      rw [transpose_none_some a b pb hpa hpb, if_neg hb]
    · rw [hpa] at ha
      simp only [isIntervalO] at ha
      rw [transpose_some_none a b pa hpa hpb, if_neg ha]
    · rw [hpa] at ha
      rw [hpb] at hb
      simp only [isIntervalO] at ha hb
      rw [transpose_some_some a b pa pb hpa hpb, if_neg ha, if_neg hb]
  · intro a b pa pb ha hb hia hib
    obtain ⟨f, o, d, htr, hd⟩ := trBy_ivl_shape pa pb hib
    constructor
    · rw [transpose_some_some a b pa pb ha hb, if_pos hia, htr]
      have : toPitchStr (some [f, o, d]) = strIvl [f, o, d] := by
        unfold toPitchStr strPitch
        simp [hd]
      rw [this]
    · rw [htr]
      exact strIvl_isSome f o d
  · intro a b pa ha hia hb
    constructor
    · rw [transpose_some_none a b pa ha hb, if_pos hia]
    · rw [transpose_none_some b a pa hb ha, if_pos hia]

/-- Witness for C3: the interval `"M3"` paired with the unparsable `"H9"`
throws both ways. -/
theorem c3_transpose_shape_witness :
    transpose (.vstr "M3") (.vstr "H9") = .error () ∧
    transpose (.vstr "H9") (.vstr "M3") = .error () :=
  c3_transpose_shape_amended.2.2 (.vstr "M3") (.vstr "H9") [4, -2, 1]
    (by decide) (by decide) (by decide)

/-- Counterexample for C3 as stated: two interval operands do not produce
an invalid result; the encoded `"M3"` transposed by itself returns the
augmented fifth `"5A"`. -/
theorem c3_transpose_shape_counterexample :
    transpose (.vpit [4, -2, 1]) (.vpit [4, -2, 1]) = .ok (some "5A") ∧
    (Except.ok (some "5A") : Except Unit (Option String)) ≠ .ok none :=
  ⟨rfl, by simp⟩

/-! ## The direction-forcing loop. -/

/-- Claim C5 (amended): any direction value other than `+1`, `-1`, `0` or
absent aborts with the fatal configuration error; `0` and an absent
direction are defaulted to ascending `+1` rather than rejected. -/
theorem c5_direction_flag_amended :
    (∀ d : ℚ, d ≠ 1 → d ≠ -1 → d ≠ 0 → ∀ l : List NoteR,
      direction l (some d) = .error ("Direction not valid: " ++ toString d)) ∧
    (∀ l : List NoteR, direction l none = direction l (some 1)) ∧
    (∀ l : List NoteR, direction l (some 0) = direction l (some 1)) := by
  refine ⟨?_, fun l => rfl, fun l => rfl⟩
  intro d h1 hm1 h0 l
  unfold direction
  simp only [if_neg h0]
  rw [if_pos (⟨h1, hm1⟩ : d ≠ 1 ∧ d ≠ -1)]

/-- Witness for C5: direction 5 aborts. -/
theorem c5_direction_flag_witness :
    direction [⟨0, 0, 4⟩] (some 5) =
      .error ("Direction not valid: " ++ toString (5 : ℚ)) :=
  c5_direction_flag_amended.1 5 (by norm_num) (by norm_num) (by norm_num)
    [⟨0, 0, 4⟩]

/-- Counterexample for C5 as stated: a direction of 0 (or an absent one)
does not abort; it silently proceeds as ascending. -/
theorem c5_direction_flag_counterexample :
    direction [⟨0, 0, 4⟩, ⟨1, 0, 4⟩] (some 0) = .ok [⟨0, 0, 4⟩, ⟨1, 0, 4⟩] ∧
    direction [⟨0, 0, 4⟩, ⟨1, 0, 4⟩] none = .ok [⟨0, 0, 4⟩, ⟨1, 0, 4⟩] :=
  ⟨rfl, rfl⟩

/-- A whole-octave shift moves the modelled midi height by 12 per octave. -/
theorem noteMidi_oct_shift (c : NoteR) (k : ℤ) :
    noteMidi ⟨c.step, c.alt, c.oct + k⟩ = noteMidi c + 12 * k := by
  simp only [noteMidi, encOct_eq]
  ring

/-- The loop body when the comparator accepts the element: unchanged. -/
theorem dirStep_keep (comp : ℤ → ℤ → Bool) (off : ℤ) (prev c : NoteR)
    (h : comp (noteMidi prev) (noteMidi c) = false) :
    dirStep comp off prev c = c := by
  unfold dirStep
  rw [h]
  rfl

/-- The loop body when the comparator rejects the element: octave shift. -/
theorem dirStep_adjusted (comp : ℤ → ℤ → Bool) (off : ℤ) (prev c : NoteR)
    (h : comp (noteMidi prev) (noteMidi c) = true) :
    dirStep comp off prev c =
      ⟨c.step, c.alt, c.oct + (Int.fdiv (noteMidi prev - noteMidi c) 12 + off)⟩ := by
  unfold dirStep
  rw [if_pos h]

theorem directionRun_length (l : List NoteR) :
    ∀ (comp : ℤ → ℤ → Bool) (off : ℤ) (prev : NoteR),
      (directionRun comp off prev l).length = l.length := by
  induction l with
  | nil => intro comp off prev; rfl
  | cons c rest ih =>
    intro comp off prev
    show (dirStep comp off prev c ::
      directionRun comp off (dirStep comp off prev c) rest).length = _
    simp [ih]

/-- Heights along the ascending loop never decrease. -/
theorem directionRun_asc_chain (l : List NoteR) :
    ∀ prev : NoteR,
      List.Chain' (fun a b => noteMidi a ≤ noteMidi b)
        (prev :: directionRun GTfn 1 prev l) := by
  induction l with
  | nil => intro prev; simp [directionRun]
  | cons c rest ih =>
    intro prev
    rw [show directionRun GTfn 1 prev (c :: rest) =
      dirStep GTfn 1 prev c :: directionRun GTfn 1 (dirStep GTfn 1 prev c) rest
      from rfl]
    rw [List.chain'_cons]
    refine ⟨?_, ih (dirStep GTfn 1 prev c)⟩
    rcases le_or_lt (noteMidi prev) (noteMidi c) with hle | hlt
    · rw [dirStep_keep _ _ _ _ (by simp [GTfn]; omega)]
      exact hle
    · rw [dirStep_adjusted _ _ _ _ (by simp [GTfn]; omega)]
      rw [noteMidi_oct_shift]
      rw [Int.fdiv_eq_ediv _ (by norm_num)]
      omega

/-- Heights along the descending loop never increase. -/
theorem directionRun_desc_chain (l : List NoteR) :
    ∀ prev : NoteR,
      List.Chain' (fun a b => noteMidi b ≤ noteMidi a)
        (prev :: directionRun LTfn 0 prev l) := by
  induction l with
  | nil => intro prev; simp [directionRun]
  | cons c rest ih =>
    intro prev
    rw [show directionRun LTfn 0 prev (c :: rest) =
      dirStep LTfn 0 prev c :: directionRun LTfn 0 (dirStep LTfn 0 prev c) rest
      from rfl]
    rw [List.chain'_cons]
    refine ⟨?_, ih (dirStep LTfn 0 prev c)⟩
    rcases le_or_lt (noteMidi c) (noteMidi prev) with hle | hlt
    · rw [dirStep_keep _ _ _ _ (by simp [LTfn]; omega)]
      exact hle
    · rw [dirStep_adjusted _ _ _ _ (by simp [LTfn]; omega)]
      rw [noteMidi_oct_shift]
      rw [Int.fdiv_eq_ediv _ (by norm_num)]
      omega

theorem direction_asc_eq (l : List NoteR) :
    direction l (some 1) = .ok
      (match l with
       | [] => []
       | x :: rest => x :: directionRun GTfn 1 x rest) := by
  cases l <;> rfl

theorem direction_desc_eq (l : List NoteR) :
    direction l (some (-1)) = .ok
      (match l with
       | [] => []
       | x :: rest => x :: directionRun LTfn 0 x rest) := by
  cases l <;> rfl

/-- Claim C4 (amended): forcing a direction keeps the first element
unchanged and produces a weakly monotonic height contour; an element
rejected by the strict comparator is shifted, in the ascending case, by
the minimal whole number of octaves making it strictly higher than the
previous kept element; an element the comparator accepts is kept
unchanged even when its height equals (ascending) or is congruent
modulo an octave to (descending) the previous kept height, so the contour
need not be strictly monotonic; the descending shift
`floor((prev - curr) / 12)` lands within the octave below the previous
kept element but yields equality when the gap is an exact multiple of an
octave. -/
theorem c4_direction_contour_amended :
    (∀ l out : List NoteR, direction l (some 1) = .ok out →
      out.length = l.length ∧ out.take 1 = l.take 1 ∧
      List.Chain' (fun a b => noteMidi a ≤ noteMidi b) out) ∧
    (∀ l out : List NoteR, direction l (some (-1)) = .ok out →
      out.length = l.length ∧ out.take 1 = l.take 1 ∧
      List.Chain' (fun a b => noteMidi b ≤ noteMidi a) out) ∧
    (∀ prev c : NoteR, noteMidi c < noteMidi prev →
      noteMidi prev < noteMidi (dirStep GTfn 1 prev c) ∧
      noteMidi (dirStep GTfn 1 prev c) ≤ noteMidi prev + 12 ∧
      (dirStep GTfn 1 prev c).step = c.step ∧
      (dirStep GTfn 1 prev c).alt = c.alt ∧
      (∀ k : ℤ, noteMidi prev < noteMidi c + 12 * k →
        (dirStep GTfn 1 prev c).oct - c.oct ≤ k)) ∧
    (∀ prev c : NoteR, noteMidi prev ≤ noteMidi c →
      dirStep GTfn 1 prev c = c) ∧
    (∀ prev c : NoteR, noteMidi c ≤ noteMidi prev →
      dirStep LTfn 0 prev c = c) ∧
    (∀ prev c : NoteR, noteMidi prev < noteMidi c →
      noteMidi (dirStep LTfn 0 prev c) ≤ noteMidi prev ∧
      noteMidi prev - 12 < noteMidi (dirStep LTfn 0 prev c) ∧
      (dirStep LTfn 0 prev c).step = c.step ∧
      (dirStep LTfn 0 prev c).alt = c.alt) := by
  refine ⟨?_, ?_, ?_, ?_, ?_, ?_⟩
  · intro l out h
    rw [direction_asc_eq] at h
    cases l with
    | nil =>
      injection h with h
      subst h
      exact ⟨rfl, rfl, by simp⟩
    | cons x rest =>
      injection h with h
      subst h
      exact ⟨by simp [directionRun_length], rfl, directionRun_asc_chain rest x⟩
  · intro l out h
    rw [direction_desc_eq] at h
    cases l with
    | nil =>
      injection h with h
      subst h
      exact ⟨rfl, rfl, by simp⟩
    | cons x rest =>
      injection h with h
      subst h
      exact ⟨by simp [directionRun_length], rfl, directionRun_desc_chain rest x⟩
  · intro prev c hlt
    rw [dirStep_adjusted _ _ _ _ (by simp [GTfn]; omega)]
    rw [noteMidi_oct_shift]
    have hf := Int.fdiv_eq_ediv (noteMidi prev - noteMidi c) (show (0:ℤ) ≤ 12 by norm_num)
    refine ⟨?_, ?_, rfl, rfl, ?_⟩
    · omega
    · omega
    · intro k hk
      simp only []
      omega
  · intro prev c hle
    exact dirStep_keep _ _ _ _ (by simp [GTfn]; omega)
  · intro prev c hle
    exact dirStep_keep _ _ _ _ (by simp [LTfn]; omega)
  · intro prev c hlt
    rw [dirStep_adjusted _ _ _ _ (by simp [LTfn]; omega)]
    rw [noteMidi_oct_shift]
    have hf := Int.fdiv_eq_ediv (noteMidi prev - noteMidi c) (show (0:ℤ) ≤ 12 by norm_num)
    refine ⟨by omega, by omega, rfl, rfl⟩

/-- Witness for C4: the spec's example `["C4", "G3", "E5"]` forced
ascending gives the weakly (here strictly) increasing `["C4", "G4", "E5"]`. -/
theorem c4_direction_contour_witness :
    List.Chain' (fun a b => noteMidi a ≤ noteMidi b)
      [(⟨0, 0, 4⟩ : NoteR), ⟨4, 0, 4⟩, ⟨2, 0, 5⟩] :=
  (c4_direction_contour_amended.1 [⟨0, 0, 4⟩, ⟨4, 0, 3⟩, ⟨2, 0, 5⟩]
    [⟨0, 0, 4⟩, ⟨4, 0, 4⟩, ⟨2, 0, 5⟩] rfl).2.2

/-- Counterexample for C4 as stated: a repeated note passes through the
ascending comparator unchanged, so the output contour is not strictly
increasing. -/
theorem c4_direction_contour_counterexample :
    direction [⟨0, 0, 4⟩, ⟨0, 0, 4⟩] (some 1) = .ok [⟨0, 0, 4⟩, ⟨0, 0, 4⟩] ∧
    ¬ List.Chain' (fun a b => noteMidi a < noteMidi b)
        [(⟨0, 0, 4⟩ : NoteR), ⟨0, 0, 4⟩] :=
  ⟨rfl, by simp⟩

/-! ## Midi contract. -/

/-- No string without a decimal digit coerces to a number in the modelled
subset (its JavaScript coercion is NaN, 0 or ±Infinity, each rejected by
`isMidi`). -/
theorem strToNumberAux_no_digit (l1 : List Char) (sgn : ℤ)
    (h : ∀ c ∈ l1, c.isDigit = false) : strToNumberAux l1 sgn = none := by
  cases l1 with
  | nil => rfl
  | cons d tl =>
    have hd : d.isDigit = false := h d (List.mem_cons_self d tl)
    have htk : (d :: tl).takeWhile Char.isDigit = [] := by
      simp [List.takeWhile_cons, hd]
    have hdp : (d :: tl).dropWhile Char.isDigit = d :: tl := by
      simp [List.dropWhile_cons, hd]
    unfold strToNumberAux
    simp only [htk, hdp]
    rw [if_neg (by simp)]
    by_cases hdot : d = '.'
    · subst hdot
      cases tl with
      | nil => simp
      | cons x xs =>
        have hx : x.isDigit = false := h x (by simp)
        simp [hx]
    · simp [hdot]

theorem strToNumber_no_digit (s : String)
    (h : ∀ c ∈ s.toList, c.isDigit = false) : strToNumber s = none := by
  have ht : ∀ c ∈ s.toList.tail, c.isDigit = false := fun c hc =>
    h c (List.mem_of_mem_tail hc)
  unfold strToNumber
  split_ifs
  · exact strToNumberAux_no_digit _ _ ht
  · exact strToNumberAux_no_digit _ _ ht
  · exact strToNumberAux_no_digit _ _ h

/-- Claim C6 (amended): `midi` returns `height + 12` for every value that
is or parses to an octave-bearing note; it returns unchanged every bare
number — a numeric value, or a numeric string after JavaScript coercion —
whose value lies in the open interval `(0, 129)`, not merely the integers
of `[1, 128]`; numbers outside that interval give null, and a digit-free
string that parses as no note gives null. -/
theorem c6_midi_contract_amended :
    (∀ v : Value, ∀ p : List ℤ, expectNote v = some p → hasOctO (some p) →
      midi v = some ((height p + 12 : ℤ) : ℚ)) ∧
    (∀ q : ℚ, 0 < q → q < 129 → midi (.vnum q) = some q) ∧
    (∀ q : ℚ, q ≤ 0 ∨ 129 ≤ q → midi (.vnum q) = none) ∧
    (∀ s : String, ∀ q : ℚ, parseNote s = none → strToNumber s = some q →
      0 < q → q < 129 → midi (.vstr s) = some q) ∧
    (∀ s : String, parseNote s = none → (∀ c ∈ s.toList, c.isDigit = false) →
      midi (.vstr s) = none) ∧
    (midi (.vstr "C4") = some 60 ∧ midi (.vstr "A4") = some 69 ∧
      midi (.vnum 60) = some 60 ∧ midi (.vstr "60.5") = some (mkRat 121 2) ∧
      midi (.vstr "H9") = none) := by
  refine ⟨?_, ?_, ?_, ?_, ?_, rfl, rfl, by decide, rfl, rfl⟩
  · intro v p hv ho
    unfold midi
    rw [hv, if_pos ho]
    rfl
  · intro q h0 h1
    simp [midi, expectNote, hasOctO, isMidi, jsNumberOf, h0, h1]
  · intro q h
    have hn : ¬(0 < q ∧ q < 129) := by
      rcases h with h | h
      · rintro ⟨a, _⟩; linarith
      · rintro ⟨_, b⟩; linarith
    simp [midi, expectNote, hasOctO, isMidi, jsNumberOf, hn]
  · intro s q hp hq h0 h1
    simp [midi, expectNote, hasOctO, isMidi, jsNumberOf, hp, hq, h0, h1]
  · intro s hp hnd
    have hnum : strToNumber s = none := strToNumber_no_digit s hnd
    simp [midi, expectNote, hasOctO, isMidi, jsNumberOf, hp, hnum]

/-- Witness for C6: the note `"C4"` hits the height branch and the
numeric string `"60.5"` the coercion branch. -/
theorem c6_midi_contract_witness :
    midi (.vstr "C4") = some ((height [0, 4] + 12 : ℤ) : ℚ) ∧
    midi (.vstr "60.5") = some (mkRat 121 2) :=
  ⟨c6_midi_contract_amended.1 (.vstr "C4") [0, 4] (by decide) (by decide),
   c6_midi_contract_amended.2.2.2.1 "60.5" (mkRat 121 2) rfl rfl
     (by decide) (by decide)⟩

/-- Counterexample for C6 as stated: 128.5 is not an octave-bearing note
and not a number in `[1, 128]`, yet `midi` returns it unchanged instead of
null. -/
theorem c6_midi_contract_counterexample :
    midi (.vnum (257 / 2)) = some (257 / 2) ∧
    ¬ ((1 : ℚ) ≤ 257 / 2 ∧ (257 / 2 : ℚ) ≤ 128) ∧
    expectNote (.vnum (257 / 2)) = none := by
  refine ⟨?_, by norm_num, rfl⟩
  have h0 : (0 : ℚ) < 257 / 2 := by norm_num
  have h1 : (257 / 2 : ℚ) < 129 := by norm_num
  simp [midi, expectNote, hasOctO, isMidi, jsNumberOf, h0, h1]

/-- Claim C10: `midi` accepts every non-array number strictly between 0
and 129 (bare numbers never parse as notes), returning it unchanged, so
non-integers such as 60.5 and 128.5 are accepted. -/
theorem c10_midi_broad (q : ℚ) (h0 : 0 < q) (h1 : q < 129) :
    expectNote (.vnum q) = none ∧ midi (.vnum q) = some q := by
  refine ⟨rfl, ?_⟩
  simp [midi, expectNote, hasOctO, isMidi, jsNumberOf, h0, h1]

/-- Witness for C10: the non-integers 60.5 and 128.5 are both returned
unchanged. -/
theorem c10_midi_broad_witness :
    midi (.vnum (121 / 2)) = some (121 / 2) ∧
    midi (.vnum (257 / 2)) = some (257 / 2) :=
  ⟨(c10_midi_broad (121 / 2) (by norm_num) (by norm_num)).2,
   (c10_midi_broad (257 / 2) (by norm_num) (by norm_num)).2⟩

/-! ## Frequency contract. -/

/-- Claim C7 (amended): `wellTempered ref` returns the frequency
`ref * 2 ^ ((m - 69) / 12)` (represented as the pair `(ref, exponent)`)
whenever `midi` yields a nonzero number `m`; it returns null when `midi`
is null AND also when `midi` is 0 (the note C-1), so the propagation is
not exact; the A4-referenced instance yields exactly 440. -/
theorem c7_welltempered_amended :
    (∀ ref : ℚ, ∀ v : Value, ∀ m : ℚ, midi v = some m → m ≠ 0 →
      wellTempered ref v = some (ref, (m - 69) / 12)) ∧
    (∀ ref : ℚ, ∀ v : Value, midi v = none ∨ midi v = some 0 →
      wellTempered ref v = none) ∧
    toFreq (.vstr "A4") = some (440, 0) ∧
    (∀ r e : ℚ, toFreq (.vstr "A4") = some (r, e) →
      (r : ℝ) * (2 : ℝ) ^ ((e : ℚ) : ℝ) = 440) := by
  have hA : toFreq (.vstr "A4") = some (440, 0) := by
    have h : midi (.vstr "A4") = some 69 := rfl
    simp [toFreq, wellTempered, h]
  refine ⟨?_, ?_, hA, ?_⟩
  · intro ref v m hm hne
    unfold wellTempered
    rw [hm]
    show (if m = 0 then (none : Option (ℚ × ℚ)) else some (ref, (m - 69) / 12)) =
      some (ref, (m - 69) / 12)
    rw [if_neg hne]
  · intro ref v h
    unfold wellTempered
    rcases h with h | h
    · rw [h]
    · rw [h]
      rfl
  · intro r e h
    rw [hA] at h
    injection h with h
    injection h with hr he
    subst hr
    subst he
    norm_num [Real.rpow_zero]

/-- Witness for C7: the nonzero midi number of `"C4"` gives the exponent
`(60 - 69) / 12`. -/
theorem c7_welltempered_witness :
    wellTempered 440 (.vstr "C4") = some (440, (60 - 69) / 12) :=
  c7_welltempered_amended.1 440 (.vstr "C4") 60 rfl (by norm_num)

/-- Counterexample for C7 as stated: the note C-1 (encoded `[0, -1]`) has
the valid (non-null) midi number 0, yet `wellTempered` returns null, so
null results do not occur exactly on null midi values. -/
theorem c7_welltempered_counterexample :
    midi (.vpit [0, -1]) = some 0 ∧ midi (.vpit [0, -1]) ≠ none ∧
    wellTempered 440 (.vpit [0, -1]) = none := by
  refine ⟨rfl, ?_, rfl⟩
  rw [show midi (Value.vpit [0, -1]) = some ((0 : ℚ)) from rfl]
  simp

/-! ## Chromatic scale.

Spec-side definitions, written from the claim's words, to be compared
with the source `chromatic`. -/

/-- Spec-side table: the natural semitones 0, 2, 4, 5, 7, 9, 11 map to the
letters C, D, E, F, G, A, B (their step indices). -/
def natStep (c : ℤ) : Option ℤ :=
  if c = 0 then some 0
  else if c = 2 then some 1
  else if c = 4 then some 2
  else if c = 5 then some 3
  else if c = 7 then some 4
  else if c = 9 then some 5
  else if c = 11 then some 6
  else none

/-- Spec-side description of the chromatic note for a chroma: a natural
chroma is the unaltered letter; a hole is the sharp of the letter one
semitone below when sharps are requested, else the flat of the letter one
semitone above. -/
def chromaticSpec (useSharps : Bool) (c : ℤ) : ℤ × ℤ :=
  match natStep c with
  | some st => (st, 0)
  | none =>
    if useSharps then ((natStep (c - 1)).getD 0, 1)
    else ((natStep (c + 1)).getD 0, -1)

theorem midiStep_eq (m : ℤ) (hm : 0 ≤ m) :
    midiStep m = CHROMATIC.getD (m % 12).toNat none := by
  show (if Int.tmod m 12 < 0 then none
    else CHROMATIC.getD (Int.tmod m 12).toNat none) = _
  rw [Int.tmod_eq_emod hm (by norm_num)]
  rw [if_neg (not_lt.mpr (Int.emod_nonneg m (by norm_num)))]

theorem chromatic_natural (m st : ℤ) (h : midiStep m = some st) (sh : Bool) :
    chromatic sh m =
      strNoteOpt (pitch st 0 (some (Int.fdiv m 12 - 1)) none) := by
  unfold chromatic
  rw [h]

theorem chromatic_hole_sharp (m st : ℤ) (h : midiStep m = none)
    (h2 : midiStep (m - 1) = some st) :
    chromatic true m =
      strNoteOpt (pitch st 1 (some (Int.fdiv m 12 - 1)) none) := by
  unfold chromatic
  rw [h, h2]
  rfl

theorem chromatic_hole_flat (m st : ℤ) (h : midiStep m = none)
    (h2 : midiStep (m + 1) = some st) :
    chromatic false m =
      strNoteOpt (pitch st (-1) (some (Int.fdiv m 12 - 1)) none) := by
  unfold chromatic
  rw [h, h2]
  rfl

/-- A step inside 0..6 always produces a renderable note. -/
theorem strNote_pitch_isSome (st a oc : ℤ) (h0 : 0 ≤ st) (h6 : st ≤ 6) :
    (strNoteOpt (pitch st a (some oc) none)).isSome := by
  rw [pitch_note st a oc h0 h6]
  show (strNote [encPC st a, encOct st a oc]).isSome
  unfold strNote
  rw [show isIntervalL [encPC st a, encOct st a oc] = false from rfl]
  rfl

/-- Claim C8: for every midi number `m ≥ 0` the chromatic scale renders
the note whose octave is `floor(m / 12) - 1` and whose letter/alteration
follow the natural-semitone table: naturals unaltered, holes as the sharp
of the letter below (with sharps) or the flat of the letter above (with
flats); the result is always a proper note string. -/
theorem c8_chromatic (m : ℤ) (hm : 0 ≤ m) (sh : Bool) :
    chromatic sh m =
      strNoteOpt (pitch (chromaticSpec sh (m % 12)).1 (chromaticSpec sh (m % 12)).2
        (some (m / 12 - 1)) none) ∧
    (chromatic sh m).isSome := by
  have hf : Int.fdiv m 12 = m / 12 := Int.fdiv_eq_ediv m (by norm_num)
  have hr0 : 0 ≤ m % 12 := Int.emod_nonneg m (by norm_num)
  have hr1 : m % 12 < 12 := Int.emod_lt_of_pos m (by norm_num)
  have key : ∀ st alt : ℤ, 0 ≤ st → st ≤ 6 →
      chromatic sh m = strNoteOpt (pitch st alt (some (Int.fdiv m 12 - 1)) none) →
      chromaticSpec sh (m % 12) = (st, alt) →
      chromatic sh m =
        strNoteOpt (pitch (chromaticSpec sh (m % 12)).1 (chromaticSpec sh (m % 12)).2
          (some (m / 12 - 1)) none) ∧
      (chromatic sh m).isSome := by
    intro st alt h0 h6 hch hcs
    refine ⟨?_, ?_⟩
    · rw [hch, hf, hcs]
    · rw [hch]
      exact strNote_pitch_isSome st alt _ h0 h6
  have hcase : m % 12 = 0 ∨ m % 12 = 1 ∨ m % 12 = 2 ∨ m % 12 = 3 ∨
      m % 12 = 4 ∨ m % 12 = 5 ∨ m % 12 = 6 ∨ m % 12 = 7 ∨ m % 12 = 8 ∨
      m % 12 = 9 ∨ m % 12 = 10 ∨ m % 12 = 11 := by omega
  rcases hcase with h | h | h | h | h | h | h | h | h | h | h | h
  · have hms : midiStep m = some 0 := by rw [midiStep_eq m hm, h]; rfl
    exact key 0 0 (by norm_num) (by norm_num) (chromatic_natural m 0 hms sh)
      (by rw [h]; rfl)
  · have hms : midiStep m = none := by rw [midiStep_eq m hm, h]; rfl
    cases sh with
    | true =>
      have hb : midiStep (m - 1) = some 0 := by
        rw [midiStep_eq (m - 1) (by omega), show (m - 1) % 12 = 0 by omega]; rfl
      exact key 0 1 (by norm_num) (by norm_num) (chromatic_hole_sharp m 0 hms hb)
        (by rw [h]; rfl)
    | false =>
      have ha : midiStep (m + 1) = some 1 := by
        rw [midiStep_eq (m + 1) (by omega), show (m + 1) % 12 = 2 by omega]; rfl
      exact key 1 (-1) (by norm_num) (by norm_num)
        (chromatic_hole_flat m 1 hms ha) (by rw [h]; rfl)
  · have hms : midiStep m = some 1 := by rw [midiStep_eq m hm, h]; rfl
    exact key 1 0 (by norm_num) (by norm_num) (chromatic_natural m 1 hms sh)
      (by rw [h]; rfl)
  · have hms : midiStep m = none := by rw [midiStep_eq m hm, h]; rfl
    cases sh with
    | true =>
      have hb : midiStep (m - 1) = some 1 := by
        rw [midiStep_eq (m - 1) (by omega), show (m - 1) % 12 = 2 by omega]; rfl
      exact key 1 1 (by norm_num) (by norm_num) (chromatic_hole_sharp m 1 hms hb)
        (by rw [h]; rfl)
    | false =>
      have ha : midiStep (m + 1) = some 2 := by
        rw [midiStep_eq (m + 1) (by omega), show (m + 1) % 12 = 4 by omega]; rfl
      exact key 2 (-1) (by norm_num) (by norm_num)
        (chromatic_hole_flat m 2 hms ha) (by rw [h]; rfl)
  · have hms : midiStep m = some 2 := by rw [midiStep_eq m hm, h]; rfl
    exact key 2 0 (by norm_num) (by norm_num) (chromatic_natural m 2 hms sh)
      (by rw [h]; rfl)
  · have hms : midiStep m = some 3 := by rw [midiStep_eq m hm, h]; rfl
    exact key 3 0 (by norm_num) (by norm_num) (chromatic_natural m 3 hms sh)
      (by rw [h]; rfl)
  · have hms : midiStep m = none := by rw [midiStep_eq m hm, h]; rfl
    cases sh with
    | true =>
      have hb : midiStep (m - 1) = some 3 := by
        rw [midiStep_eq (m - 1) (by omega), show (m - 1) % 12 = 5 by omega]; rfl
      exact key 3 1 (by norm_num) (by norm_num) (chromatic_hole_sharp m 3 hms hb)
        (by rw [h]; rfl)
    | false =>
      have ha : midiStep (m + 1) = some 4 := by
        rw [midiStep_eq (m + 1) (by omega), show (m + 1) % 12 = 7 by omega]; rfl
      exact key 4 (-1) (by norm_num) (by norm_num)
        (chromatic_hole_flat m 4 hms ha) (by rw [h]; rfl)
  · have hms : midiStep m = some 4 := by rw [midiStep_eq m hm, h]; rfl
    exact key 4 0 (by norm_num) (by norm_num) (chromatic_natural m 4 hms sh)
      (by rw [h]; rfl)
  · have hms : midiStep m = none := by rw [midiStep_eq m hm, h]; rfl
    cases sh with
    | true =>
      have hb : midiStep (m - 1) = some 4 := by
        rw [midiStep_eq (m - 1) (by omega), show (m - 1) % 12 = 7 by omega]; rfl
      exact key 4 1 (by norm_num) (by norm_num) (chromatic_hole_sharp m 4 hms hb)
        (by rw [h]; rfl)
    | false =>
      have ha : midiStep (m + 1) = some 5 := by
        rw [midiStep_eq (m + 1) (by omega), show (m + 1) % 12 = 9 by omega]; rfl
      exact key 5 (-1) (by norm_num) (by norm_num)
        (chromatic_hole_flat m 5 hms ha) (by rw [h]; rfl)
  · have hms : midiStep m = some 5 := by rw [midiStep_eq m hm, h]; rfl
    exact key 5 0 (by norm_num) (by norm_num) (chromatic_natural m 5 hms sh)
      (by rw [h]; rfl)
  · have hms : midiStep m = none := by rw [midiStep_eq m hm, h]; rfl
    cases sh with
    | true =>
      have hb : midiStep (m - 1) = some 5 := by
        rw [midiStep_eq (m - 1) (by omega), show (m - 1) % 12 = 9 by omega]; rfl
      exact key 5 1 (by norm_num) (by norm_num) (chromatic_hole_sharp m 5 hms hb)
        (by rw [h]; rfl)
    | false =>
      have ha : midiStep (m + 1) = some 6 := by
        rw [midiStep_eq (m + 1) (by omega), show (m + 1) % 12 = 11 by omega]; rfl
      exact key 6 (-1) (by norm_num) (by norm_num)
        (chromatic_hole_flat m 6 hms ha) (by rw [h]; rfl)
  · have hms : midiStep m = some 6 := by rw [midiStep_eq m hm, h]; rfl
    exact key 6 0 (by norm_num) (by norm_num) (chromatic_natural m 6 hms sh)
      (by rw [h]; rfl)

/-- Witness for C8: midi 61 with flats renders by the spec table
(namely as Db4). -/
theorem c8_chromatic_witness :
    (chromatic false 61 =
      strNoteOpt (pitch (chromaticSpec false ((61 : ℤ) % 12)).1
        (chromaticSpec false ((61 : ℤ) % 12)).2
        (some ((61 : ℤ) / 12 - 1)) none) ∧
    (chromatic false 61).isSome) ∧ chromatic false 61 = some "Db4" :=
  ⟨c8_chromatic 61 (by norm_num) false, by decide⟩

end Tonal
